import Mathlib

/-!
Verification of the Merlin-Generator front-end compiler: the LaTeX-Lite
tokenizer and recursive-descent parser (src parser, `latexParser`) and the
zod-based IR schema validator (`validator`), shallowly embedded as
executable Lean functions.  Machine strings are Lean `String`s; the
JavaScript exception flow is modelled with `Except`; JSON-like values are
an explicit inductive `Json` type.  The unbounded scanning/parsing loops of
the source are given an explicit fuel argument so that every definition is
a computable total function; the top-level entry points always supply
sufficient fuel (one unit per token/character plus one), matching the
source's termination behaviour on its reachable states.
-/

namespace Merlin

/-- Token kinds of the tokenizer (`enum TokenType`). -/
inductive TokenType where
  | COMMAND
  | LBRACE
  | RBRACE
  | LBRACKET
  | RBRACKET
  | TEXT
  | NEWLINE
  | EOF
deriving DecidableEq, Repr

/-- A lexical token (`interface Token`). -/
structure Token where
  type : TokenType
  value : String
  line : Nat
  column : Nat
deriving DecidableEq, Repr

/-- A parser error (`class ParserError`): message plus source location. -/
structure PError where
  message : String
  line : Nat
  column : Nat
deriving DecidableEq, Repr

/-- The whitespace set skipped between tokens (`skipWhitespace`):
space, tab, carriage return. -/
def isSkipWs (c : Char) : Bool :=
  c == ' ' || c == '\t' || c == '\r'

/-- ASCII letters, the command-name alphabet (`/[a-zA-Z]/` in `readCommand`). -/
def isCmdChar (c : Char) : Bool :=
  ('a' ≤ c && c ≤ 'z') || ('A' ≤ c && c ≤ 'Z')

/-- The characters at which a TEXT run stops (`readText`). -/
def isSpecialChar (c : Char) : Bool :=
  c == '\\' || c == '\x7b' || c == '\x7d' || c == '[' || c == ']' || c == '\n'

/-- The whitespace set of JavaScript's `String.prototype.trim` and of its
regex class `\s` (WhiteSpace plus LineTerminator). -/
def isJsWs (c : Char) : Bool :=
  c == ' ' || c == '\t' || c == '\n' || c == '\r' || c == '\x0b' ||
  c == '\x0c' || c == '\u00A0' || c == '\u1680' ||
  ('\u2000' ≤ c && c ≤ '\u200A') || c == '\u2028' || c == '\u2029' ||
  c == '\u202F' || c == '\u205F' || c == '\u3000' || c == '\uFEFF'

/-- `cs` with leading and trailing JavaScript whitespace removed. -/
def trimList (cs : List Char) : List Char :=
  ((cs.dropWhile isJsWs).reverse.dropWhile isJsWs).reverse

/-- JavaScript `s.trim()`. -/
def trimStr (s : String) : String :=
  ⟨trimList s.toList⟩

/-- One character step of the line/column bookkeeping (`advance`). -/
def advancePos (p : Nat × Nat) (c : Char) : Nat × Nat :=
  if c = '\n' then (p.1 + 1, 1) else (p.1, p.2 + 1)

/-- The line/column after scanning all of `cs` starting from `(1,1)`-based
position `p`. -/
def scanPos (p : Nat × Nat) (cs : List Char) : Nat × Nat :=
  cs.foldl advancePos p

/-- The tokenizer loop (`Tokenizer.tokenize`), one recursive step per
consumed run of characters.  `fuel` bounds the number of steps; the entry
point supplies more fuel than the input length, and every step consumes at
least one character, so the fuel-exhausted branch is unreachable from
`tokenize`.  Both exhausted-input branches emit the terminal EOF token, as
the source's final `tokens.push` does. -/
def tokenizeAux : Nat → List Char → Nat → Nat → List Token
  | 0, _, line, col => [⟨TokenType.EOF, "", line, col⟩]
  | _ + 1, [], line, col => [⟨TokenType.EOF, "", line, col⟩]
  | fuel + 1, c :: cs, line, col =>
    if isSkipWs c then
      tokenizeAux fuel cs line (col + 1)
    else if c == '\\' then
      let cmd := cs.takeWhile isCmdChar
      ⟨TokenType.COMMAND, ⟨cmd⟩, line, col⟩ ::
        tokenizeAux fuel (cs.dropWhile isCmdChar) line (col + 1 + cmd.length)
    else if c == '\x7b' then
      ⟨TokenType.LBRACE, "\x7b", line, col⟩ :: tokenizeAux fuel cs line (col + 1)
    else if c == '\x7d' then
      ⟨TokenType.RBRACE, "\x7d", line, col⟩ :: tokenizeAux fuel cs line (col + 1)
    else if c == '[' then
      ⟨TokenType.LBRACKET, "[", line, col⟩ :: tokenizeAux fuel cs line (col + 1)
    else if c == ']' then
      ⟨TokenType.RBRACKET, "]", line, col⟩ :: tokenizeAux fuel cs line (col + 1)
    else if c == '\n' then
      ⟨TokenType.NEWLINE, "\n", line, col⟩ :: tokenizeAux fuel cs (line + 1) 1
    else
      let run := c :: cs.takeWhile (fun ch => !isSpecialChar ch)
      let txt := trimStr ⟨run⟩
      let rest := cs.dropWhile (fun ch => !isSpecialChar ch)
      if txt == "" then tokenizeAux fuel rest line (col + run.length)
      else ⟨TokenType.TEXT, txt, line, col⟩ :: tokenizeAux fuel rest line (col + run.length)

/-- `tokenize(source)`: the full token sequence of `input`, ending in EOF. -/
def tokenize (input : String) : List Token :=
  tokenizeAux (input.length + 1) input.toList 1 1

/-! ## IR data model (`types`) -/

/-- `AnimationMode`: the three animation literals. -/
inductive AnimationMode where
  | none
  | reveal
  | highlight
deriving DecidableEq, Repr

/-- `ContentNode`: the closed discriminated union of the eight content-node
variants.  The `type` discriminant string of the source becomes the
constructor; optional fields become `Option`s.  (`theorem` is a Lean
keyword, so that variant is named `thm`.) -/
inductive ContentNode where
  | definition (title body : String)
  | thm (title body : String)
  | proof (body : String)
  | equation (latex : String) (animate : Option AnimationMode)
  | figure (ref : String) (alt caption : Option String)
  | algorithm (name : String) (steps : List String)
  | note (body : String)
  | text (content : String)
deriving DecidableEq, Repr

/-- `SlideNode` (its constant `type : "slide"` discriminant is implicit). -/
structure SlideNode where
  id : String
  title : String
  content : List ContentNode
deriving DecidableEq, Repr

/-- The `meta` object of a `SlideDeck`. -/
structure DeckMeta where
  title : String
  author : Option String
  date : Option String
deriving DecidableEq, Repr

/-- `SlideDeck`: the document root. -/
structure SlideDeck where
  meta : DeckMeta
  slides : List SlideNode
deriving DecidableEq, Repr

/-! ## Parser (`latexParser`)

The source parser keeps a cursor `pos` into the token array; here each
function consumes tokens from the front of a `List Token` and returns the
unconsumed suffix.  `current()`'s out-of-bounds fallback is modelled by
`currentTok` returning an EOF sentinel on the empty list; on the
EOF-terminated streams `tokenize` produces, the cursor never passes the
terminal EOF token, so the two views coincide. -/

/-- `current()`. -/
def currentTok (ts : List Token) : Token :=
  ts.headD ⟨TokenType.EOF, "", 0, 0⟩

/-- The accumulation loop of `readBraceContent`: runs while `depth > 0`
and the current token is not EOF; re-inserts interior balanced braces. -/
def readBraceLoop : List Token → Nat → String → String × List Token
  | ts, 0, acc => (acc, ts)
  | [], _ + 1, acc => (acc, [])
  | t :: rest, d + 1, acc =>
    if t.type = TokenType.EOF then (acc, t :: rest)
    else if t.type = TokenType.LBRACE then readBraceLoop rest (d + 2) (acc ++ "\x7b")
    else if t.type = TokenType.RBRACE then
      readBraceLoop rest d (if d > 0 then acc ++ "\x7d" else acc)
    else readBraceLoop rest (d + 1) (acc ++ t.value)

/-- `readBraceContent()`: expect LBRACE, accumulate until the matching
RBRACE or EOF, trim.  Note the source raises no error when EOF is reached
with the group still open: the loop simply exits. -/
def readBraceContent (ts : List Token) : Except PError (String × List Token) :=
  let t := currentTok ts
  if t.type = TokenType.LBRACE then
    let (content, rest) := readBraceLoop ts.tail 1 ""
    .ok (trimStr content, rest)
  else
    .error ⟨"Expected LBRACE, got another token", t.line, t.column⟩

/-- The accumulation loop of `readBracketContent`: runs until RBRACKET or
EOF. -/
def readBracketLoop : List Token → String → String × List Token
  | [], acc => (acc, [])
  | t :: rest, acc =>
    if t.type = TokenType.RBRACKET ∨ t.type = TokenType.EOF then (acc, t :: rest)
    else readBracketLoop rest (acc ++ t.value)

/-- `readBracketContent()`: expect LBRACKET, accumulate until RBRACKET,
expect RBRACKET, trim. -/
def readBracketContent (ts : List Token) : Except PError (String × List Token) :=
  let t := currentTok ts
  if t.type = TokenType.LBRACKET then
    let (content, rest) := readBracketLoop ts.tail ""
    let t2 := currentTok rest
    if t2.type = TokenType.RBRACKET then .ok (trimStr content, rest.tail)
    else .error ⟨"Expected RBRACKET, got another token", t2.line, t2.column⟩
  else
    .error ⟨"Expected LBRACKET, got another token", t.line, t.column⟩

/-- `parseDefinition`: two brace groups, title then body. -/
def parseDefinition (ts : List Token) : Except PError (ContentNode × List Token) := do
  let (title, ts1) ← readBraceContent ts
  let (body, ts2) ← readBraceContent ts1
  .ok (ContentNode.definition title body, ts2)

/-- `parseTheorem`: two brace groups, title then body. -/
def parseTheorem (ts : List Token) : Except PError (ContentNode × List Token) := do
  let (title, ts1) ← readBraceContent ts
  let (body, ts2) ← readBraceContent ts1
  .ok (ContentNode.thm title body, ts2)

/-- `parseProof`: one brace group. -/
def parseProof (ts : List Token) : Except PError (ContentNode × List Token) := do
  let (body, ts1) ← readBraceContent ts
  .ok (ContentNode.proof body, ts1)

/-- The regex alternative test of `parseEquation` at one position:
`animate=(none|reveal|highlight)`, alternatives tried in order. -/
def matchAnimateHere (cs : List Char) : Option AnimationMode :=
  if "animate=none".toList.isPrefixOf cs then some AnimationMode.none
  else if "animate=reveal".toList.isPrefixOf cs then some AnimationMode.reveal
  else if "animate=highlight".toList.isPrefixOf cs then some AnimationMode.highlight
  else Option.none

/-- The unanchored regex search `params.match(/animate=(none|reveal|highlight)/)`:
leftmost matching position wins. -/
def findAnimateAux : List Char → Option AnimationMode
  | [] => Option.none
  | c :: cs =>
    match matchAnimateHere (c :: cs) with
    | some m => some m
    | Option.none => findAnimateAux cs

/-- The capture group of the animate regex applied to a bracket-parameter
string, if any. -/
def findAnimate (s : String) : Option AnimationMode :=
  findAnimateAux s.toList

/-- `parseEquation`: an optional bracket parameter (a non-matching one is
silently ignored, leaving the default `none`), then one brace group. -/
def parseEquation (ts : List Token) : Except PError (ContentNode × List Token) :=
  if (currentTok ts).type = TokenType.LBRACKET then do
    let (params, ts1) ← readBracketContent ts
    let animate :=
      match findAnimate params with
      | some m => m
      | Option.none => AnimationMode.none
    let (latex, ts2) ← readBraceContent ts1
    .ok (ContentNode.equation latex (some animate), ts2)
  else do
    let (latex, ts1) ← readBraceContent ts
    .ok (ContentNode.equation latex (some AnimationMode.none), ts1)

/-- `parseFigure`: one brace group (`ref`); `alt`/`caption` stay absent. -/
def parseFigure (ts : List Token) : Except PError (ContentNode × List Token) := do
  let (ref, ts1) ← readBraceContent ts
  .ok (ContentNode.figure ref Option.none Option.none, ts1)

/-- JavaScript `s.split(',')` (the separator is a single comma). -/
def splitCommaAux : List Char → List Char → List String
  | [], acc => [⟨acc.reverse⟩]
  | c :: cs, acc =>
    if c == ',' then ⟨acc.reverse⟩ :: splitCommaAux cs []
    else splitCommaAux cs (c :: acc)

/-- JavaScript `s.split(',')`. -/
def splitComma (s : String) : List String :=
  splitCommaAux s.toList []

/-- The steps pipeline of `parseAlgorithm`: split on `,`, trim each piece,
drop empty pieces. -/
def splitSteps (s : String) : List String :=
  ((splitComma s).map trimStr).filter (fun x => x.length != 0)

/-- `parseAlgorithm`: two brace groups (name, steps blob); the blob is
split into steps. -/
def parseAlgorithm (ts : List Token) : Except PError (ContentNode × List Token) := do
  let (name, ts1) ← readBraceContent ts
  let (blob, ts2) ← readBraceContent ts1
  .ok (ContentNode.algorithm name (splitSteps blob), ts2)

/-- `parseNote`: one brace group. -/
def parseNote (ts : List Token) : Except PError (ContentNode × List Token) := do
  let (body, ts1) ← readBraceContent ts
  .ok (ContentNode.note body, ts1)

/-- `parseContent()`: the content-list loop dispatching on command names;
TEXT tokens become `text` nodes when nonempty after trim; other token kinds
are skipped.  One fuel unit per iteration; each iteration consumes at least
one token, and the loop stops at the terminal EOF, so the fuel supplied by
`parseSlide` (token count + 1) is never exhausted. -/
def parseContentLoop : Nat → List Token → List ContentNode →
    Except PError (List ContentNode)
  | 0, _, _ => .error ⟨"out of fuel", 0, 0⟩
  | fuel + 1, ts, acc =>
    let t := currentTok ts
    if t.type = TokenType.EOF then .ok acc
    else if t.type = TokenType.COMMAND then
      match t.value with
      | "definition" => do
        let (n, ts1) ← parseDefinition ts.tail
        parseContentLoop fuel ts1 (acc ++ [n])
      | "theorem" => do
        let (n, ts1) ← parseTheorem ts.tail
        parseContentLoop fuel ts1 (acc ++ [n])
      | "proof" => do
        let (n, ts1) ← parseProof ts.tail
        parseContentLoop fuel ts1 (acc ++ [n])
      | "equation" => do
        let (n, ts1) ← parseEquation ts.tail
        parseContentLoop fuel ts1 (acc ++ [n])
      | "figure" => do
        let (n, ts1) ← parseFigure ts.tail
        parseContentLoop fuel ts1 (acc ++ [n])
      | "algorithm" => do
        let (n, ts1) ← parseAlgorithm ts.tail
        parseContentLoop fuel ts1 (acc ++ [n])
      | "note" => do
        let (n, ts1) ← parseNote ts.tail
        parseContentLoop fuel ts1 (acc ++ [n])
      | other => .error ⟨"Unknown command: \\" ++ other, t.line, t.column⟩
    else if t.type = TokenType.TEXT then
      if trimStr t.value == "" then parseContentLoop fuel ts.tail acc
      else parseContentLoop fuel ts.tail (acc ++ [ContentNode.text t.value])
    else parseContentLoop fuel ts.tail acc

/-- Character predicate of the slug's second replacement: keep lowercase
ASCII letters, digits, hyphens (`/[^a-z0-9-]/g` stripped). -/
def isSlugChar (c : Char) : Bool :=
  ('a' ≤ c && c ≤ 'z') || ('0' ≤ c && c ≤ '9') || c == '-'

mutual

/-- `title.replace(/\s+/g, '-')` after lower-casing: each maximal
whitespace run becomes a single hyphen. -/
def collapseWs : List Char → List Char
  | [] => []
  | c :: cs => if isJsWs c then '-' :: skipWsRun cs else c :: collapseWs cs

/-- Skips the remainder of a whitespace run inside `collapseWs`. -/
def skipWsRun : List Char → List Char
  | [] => []
  | c :: cs => if isJsWs c then skipWsRun cs else c :: collapseWs cs

end

/-- The slide-id derivation of `parseSlide`:
`slide-` ++ lower-cased title (ASCII case mapping; non-ASCII letters are
stripped by the slug filter either way) with whitespace runs collapsed to
`-` and non-slug characters stripped. -/
def mkSlideId (title : String) : String :=
  "slide-" ++ ⟨(collapseWs (title.toList.map Char.toLower)).filter isSlugChar⟩

/-- `parseSlide`: title brace group, content brace group; the content block
is re-tokenized and parsed as an independent content list; the id is
derived from the title. -/
def parseSlide (ts : List Token) : Except PError (SlideNode × List Token) := do
  let (title, ts1) ← readBraceContent ts
  let (contentBlock, ts2) ← readBraceContent ts1
  let ctoks := tokenize contentBlock
  let content ← parseContentLoop (ctoks.length + 1) ctoks []
  .ok ({ id := mkSlideId title, title := title, content := content }, ts2)

/-- `parse()`: the top-level loop.  `\title` overwrites the deck title
(default `"Untitled Deck"`), `\slide` appends a slide, NEWLINE is skipped,
anything else is a fatal error. -/
def parseTopLoop : Nat → List Token → String → List SlideNode →
    Except PError SlideDeck
  | 0, _, _, _ => .error ⟨"out of fuel", 0, 0⟩
  | fuel + 1, ts, deckTitle, slides =>
    let t := currentTok ts
    if t.type = TokenType.EOF then
      .ok ⟨⟨deckTitle, Option.none, Option.none⟩, slides⟩
    else if t.type = TokenType.COMMAND then
      if t.value = "slide" then do
        let (s, ts1) ← parseSlide ts.tail
        parseTopLoop fuel ts1 deckTitle (slides ++ [s])
      else if t.value = "title" then do
        let (newTitle, ts1) ← readBraceContent ts.tail
        parseTopLoop fuel ts1 newTitle slides
      else
        .error ⟨"Unexpected command at top level: \\" ++ t.value ++
          ". Only slide and title are allowed.", t.line, t.column⟩
    else if t.type = TokenType.NEWLINE then
      parseTopLoop fuel ts.tail deckTitle slides
    else
      .error ⟨"Unexpected token at top level", t.line, t.column⟩

/-- `parseLatexLite(input)`: tokenize then parse. -/
def parseLatexLite (input : String) : Except PError SlideDeck :=
  let ts := tokenize input
  parseTopLoop (ts.length + 1) ts "Untitled Deck" []

/-! ## Schema validator (`validator`)

The zod schemas of the source are embedded as executable checkers over an
explicit JSON value type.  Zod's `z.object` is in its default mode here (no
`.strict()` in the source): required keys must be present with the right
type, optional keys may be absent, and any further keys are stripped, not
rejected.  `safeParse` failure is modelled as `Option.none` — the claims
concern acceptance and the accepted value, not the issue lists. -/

/-- A JSON-like runtime value. -/
inductive Json where
  | null
  | bool (b : Bool)
  | num (n : Int)
  | str (s : String)
  | arr (items : List Json)
  | obj (fields : List (String × Json))

/-- Key lookup on a JSON object; as in a JavaScript object built from
duplicate keys, the last binding wins. -/
def lookupField (fields : List (String × Json)) (key : String) : Option Json :=
  fields.foldl (fun acc kv => if kv.1 = key then some kv.2 else acc) Option.none

/-- `z.string()`. -/
def parseStr : Json → Option String
  | .str s => some s
  | _ => Option.none

/-- `z.enum(['none', 'reveal', 'highlight'])`. -/
def parseAnimationMode : Json → Option AnimationMode
  | .str "none" => some AnimationMode.none
  | .str "reveal" => some AnimationMode.reveal
  | .str "highlight" => some AnimationMode.highlight
  | _ => Option.none

/-- A required object field: present and well-typed. -/
def parseReqField (fields : List (String × Json)) (key : String)
    (p : Json → Option α) : Option α :=
  (lookupField fields key).bind p

/-- An optional object field (`.optional()`): absent is fine, present must
be well-typed. -/
def parseOptField (fields : List (String × Json)) (key : String)
    (p : Json → Option α) : Option (Option α) :=
  match lookupField fields key with
  | Option.none => some Option.none
  | some v => (p v).map some

/-- Element-wise array validation (`z.array`): succeeds iff every element
does. -/
def mapOpt (p : Json → Option α) : List Json → Option (List α)
  | [] => some []
  | j :: js => do
    let a ← p j
    let rest ← mapOpt p js
    some (a :: rest)

/-- `z.array(z.string())`. -/
def parseStrArr : Json → Option (List String)
  | .arr items => mapOpt parseStr items
  | _ => Option.none

/-- `contentNodeSchema`: the discriminated union over the eight variants,
dispatching on the `type` literal, then checking that variant's object
shape. -/
def validateContentNodeJson (j : Json) : Option ContentNode :=
  match j with
  | .obj fields =>
    match lookupField fields "type" with
    | some (.str "definition") => do
      let t ← parseReqField fields "title" parseStr
      let b ← parseReqField fields "body" parseStr
      some (ContentNode.definition t b)
    | some (.str "theorem") => do
      let t ← parseReqField fields "title" parseStr
      let b ← parseReqField fields "body" parseStr
      some (ContentNode.thm t b)
    | some (.str "proof") => do
      let b ← parseReqField fields "body" parseStr
      some (ContentNode.proof b)
    | some (.str "equation") => do
      let l ← parseReqField fields "latex" parseStr
      let a ← parseOptField fields "animate" parseAnimationMode
      some (ContentNode.equation l a)
    | some (.str "figure") => do
      let r ← parseReqField fields "ref" parseStr
      let alt ← parseOptField fields "alt" parseStr
      let cap ← parseOptField fields "caption" parseStr
      some (ContentNode.figure r alt cap)
    | some (.str "algorithm") => do
      let n ← parseReqField fields "name" parseStr
      let steps ← parseReqField fields "steps" parseStrArr
      some (ContentNode.algorithm n steps)
    | some (.str "note") => do
      let b ← parseReqField fields "body" parseStr
      some (ContentNode.note b)
    | some (.str "text") => do
      let c ← parseReqField fields "content" parseStr
      some (ContentNode.text c)
    | _ => Option.none
  | _ => Option.none

/-- `slideNodeSchema`: `type` must be the literal `"slide"`, `id`/`title`
strings, `content` an array of content nodes. -/
def validateSlideNodeJson (j : Json) : Option SlideNode :=
  match j with
  | .obj fields =>
    match lookupField fields "type" with
    | some (.str "slide") => do
      let i ← parseReqField fields "id" parseStr
      let t ← parseReqField fields "title" parseStr
      let c ← parseReqField fields "content" (fun v =>
        match v with
        | .arr items => mapOpt validateContentNodeJson items
        | _ => Option.none)
      some (⟨i, t, c⟩ : SlideNode)
    | _ => Option.none
  | _ => Option.none

/-- The nested `meta` object schema of `slideDeckSchema`. -/
def validateMetaJson (j : Json) : Option DeckMeta :=
  match j with
  | .obj fields => do
    let t ← parseReqField fields "title" parseStr
    let a ← parseOptField fields "author" parseStr
    let d ← parseOptField fields "date" parseStr
    some (⟨t, a, d⟩ : DeckMeta)
  | _ => Option.none

/-- `validateSlideDeck` via `slideDeckSchema.safeParse`: `some` is the
narrowed typed value, `Option.none` the thrown `ValidationError`. -/
def validateSlideDeckJson (j : Json) : Option SlideDeck :=
  match j with
  | .obj fields => do
    let m ← parseReqField fields "meta" validateMetaJson
    let s ← parseReqField fields "slides" (fun v =>
      match v with
      | .arr items => mapOpt validateSlideNodeJson items
      | _ => Option.none)
    some (⟨m, s⟩ : SlideDeck)
  | _ => Option.none

/-! ## Serialization to the IR JSON surface

The typed tree written back as the JSON object shape the source constructs
(object literals in the parser, zod's stripped output): exactly the
declared keys, optional fields present iff populated. -/

/-- The wire string of an animation mode. -/
def animToStr : AnimationMode → String
  | AnimationMode.none => "none"
  | AnimationMode.reveal => "reveal"
  | AnimationMode.highlight => "highlight"

/-- An optional string field: absent when `Option.none`. -/
def optField (key : String) : Option String → List (String × Json)
  | Option.none => []
  | some s => [(key, Json.str s)]

/-- A content node on the IR JSON surface. -/
def contentToJson : ContentNode → Json
  | ContentNode.definition t b =>
    .obj [("type", .str "definition"), ("title", .str t), ("body", .str b)]
  | ContentNode.thm t b =>
    .obj [("type", .str "theorem"), ("title", .str t), ("body", .str b)]
  | ContentNode.proof b =>
    .obj [("type", .str "proof"), ("body", .str b)]
  | ContentNode.equation l a =>
    .obj ([("type", .str "equation"), ("latex", .str l)] ++
      (match a with
       | Option.none => []
       | some m => [("animate", Json.str (animToStr m))]))
  | ContentNode.figure r alt cap =>
    .obj ([("type", .str "figure"), ("ref", .str r)] ++
      optField "alt" alt ++ optField "caption" cap)
  | ContentNode.algorithm n steps =>
    .obj [("type", .str "algorithm"), ("name", .str n),
      ("steps", .arr (steps.map Json.str))]
  | ContentNode.note b =>
    .obj [("type", .str "note"), ("body", .str b)]
  | ContentNode.text c =>
    .obj [("type", .str "text"), ("content", .str c)]

/-- A slide node on the IR JSON surface. -/
def slideToJson (s : SlideNode) : Json :=
  .obj [("type", .str "slide"), ("id", .str s.id), ("title", .str s.title),
    ("content", .arr (s.content.map contentToJson))]

/-- A slide deck on the IR JSON surface. -/
def deckToJson (d : SlideDeck) : Json :=
  .obj [("meta", .obj ([("title", .str d.meta.title)] ++
      optField "author" d.meta.author ++ optField "date" d.meta.date)),
    ("slides", .arr (d.slides.map slideToJson))]

/-! ## Tokenizer lemmas -/

lemma advancePos_ne {c : Char} (h : c ≠ '\n') (line col : Nat) :
    advancePos (line, col) c = (line, col + 1) := by
  simp [advancePos, h]

lemma scanPos_append (p : Nat × Nat) (l1 l2 : List Char) :
    scanPos p (l1 ++ l2) = scanPos (scanPos p l1) l2 := by
  simp [scanPos, List.foldl_append]

lemma scanPos_noNl : ∀ (cs : List Char), (∀ c ∈ cs, c ≠ '\n') → ∀ line col,
    scanPos (line, col) cs = (line, col + cs.length) := by
  intro cs
  induction cs with
  | nil => intro _ line col; simp [scanPos]
  | cons c cs ih =>
    intro h line col
    have hc : c ≠ '\n' := h c (by simp)
    have hrest := ih (fun x hx => h x (by simp [hx])) line (col + 1)
    show scanPos (advancePos (line, col) c) cs = _
    rw [advancePos_ne hc, hrest]
    simp; omega

lemma scanPos_stepNoNl {c : Char} (h : c ≠ '\n') (line col : Nat) (cs : List Char) :
    scanPos (line, col) (c :: cs) = scanPos (line, col + 1) cs := by
  show scanPos (advancePos (line, col) c) cs = _
  rw [advancePos_ne h]

lemma tokenizeAux_eof : ∀ fuel cs line col, cs.length < fuel →
    ∃ ts, tokenizeAux fuel cs line col =
        ts ++ [⟨TokenType.EOF, "", (scanPos (line, col) cs).1, (scanPos (line, col) cs).2⟩]
      ∧ ∀ t ∈ ts, t.type ≠ TokenType.EOF := by
  intro fuel
  induction fuel with
  | zero => intro cs line col h; omega
  | succ fuel ih =>
    intro cs line col h
    match cs with
    | [] => exact ⟨[], by simp [tokenizeAux, scanPos], by simp⟩
    | c :: cs =>
      have hlen : cs.length < fuel := by simpa using Nat.lt_of_succ_lt_succ h
      rw [tokenizeAux]
      by_cases h1 : isSkipWs c
      · have hc : c ≠ '\n' := by
          intro hcn; subst hcn; simp [isSkipWs] at h1
        obtain ⟨ts, hts, hfree⟩ := ih cs line (col + 1) hlen
        refine ⟨ts, ?_, hfree⟩
        rw [if_pos h1, hts, scanPos_stepNoNl hc]
      · rw [if_neg h1]
        by_cases h2 : c == '\\'
        · have hc : c = '\\' := by simpa using h2
          have hlen2 : (cs.dropWhile isCmdChar).length < fuel :=
            lt_of_le_of_lt (List.dropWhile_sublist isCmdChar).length_le hlen
          obtain ⟨ts, hts, hfree⟩ :=
            ih (cs.dropWhile isCmdChar) line (col + 1 + (cs.takeWhile isCmdChar).length) hlen2
          refine ⟨⟨TokenType.COMMAND, ⟨cs.takeWhile isCmdChar⟩, line, col⟩ :: ts, ?_, ?_⟩
          · rw [if_pos h2]
            simp only [List.cons_append, List.cons.injEq, true_and]
            rw [hts]
            have hpos : scanPos (line, col) (c :: cs) =
                scanPos (line, col + 1 + (cs.takeWhile isCmdChar).length) (cs.dropWhile isCmdChar) := by
              rw [scanPos_stepNoNl (by simp [hc]) line col cs]
              conv_lhs => rw [← List.takeWhile_append_dropWhile (p := isCmdChar) (l := cs)]
              rw [scanPos_append]
              rw [scanPos_noNl (cs.takeWhile isCmdChar)
                (fun x hx => by
                  have := List.mem_takeWhile_imp hx
                  intro heq; subst heq; simp [isCmdChar] at this)]
            rw [hpos]
          · intro t ht
            rcases List.mem_cons.mp ht with hh | hh
            · subst hh; simp
            · exact hfree t hh
        · rw [if_neg h2]
          by_cases h3 : c == '\x7b'
          · obtain ⟨ts, hts, hfree⟩ := ih cs line (col + 1) hlen
            refine ⟨⟨TokenType.LBRACE, "\x7b", line, col⟩ :: ts, ?_, ?_⟩
            · rw [if_pos h3]
              simp only [List.cons_append, List.cons.injEq, true_and]
              rw [hts, scanPos_stepNoNl (by simp at h3; simp [h3]) line col cs]
            · intro t ht
              rcases List.mem_cons.mp ht with hh | hh
              · subst hh; simp
              · exact hfree t hh
          · rw [if_neg h3]
            by_cases h4 : c == '\x7d'
            · obtain ⟨ts, hts, hfree⟩ := ih cs line (col + 1) hlen
              refine ⟨⟨TokenType.RBRACE, "\x7d", line, col⟩ :: ts, ?_, ?_⟩
              · rw [if_pos h4]
                simp only [List.cons_append, List.cons.injEq, true_and]
                rw [hts, scanPos_stepNoNl (by simp at h4; simp [h4]) line col cs]
              · intro t ht
                rcases List.mem_cons.mp ht with hh | hh
                · subst hh; simp
                · exact hfree t hh
            · rw [if_neg h4]
              by_cases h5 : c == '['
              · obtain ⟨ts, hts, hfree⟩ := ih cs line (col + 1) hlen
                refine ⟨⟨TokenType.LBRACKET, "[", line, col⟩ :: ts, ?_, ?_⟩
                · rw [if_pos h5]
                  simp only [List.cons_append, List.cons.injEq, true_and]
                  rw [hts, scanPos_stepNoNl (by simp at h5; simp [h5]) line col cs]
                · intro t ht
                  rcases List.mem_cons.mp ht with hh | hh
                  · subst hh; simp
                  · exact hfree t hh
              · rw [if_neg h5]
                by_cases h6 : c == ']'
                · obtain ⟨ts, hts, hfree⟩ := ih cs line (col + 1) hlen
                  refine ⟨⟨TokenType.RBRACKET, "]", line, col⟩ :: ts, ?_, ?_⟩
                  · rw [if_pos h6]
                    simp only [List.cons_append, List.cons.injEq, true_and]
                    rw [hts, scanPos_stepNoNl (by simp at h6; simp [h6]) line col cs]
                  · intro t ht
                    rcases List.mem_cons.mp ht with hh | hh
                    · subst hh; simp
                    · exact hfree t hh
                · rw [if_neg h6]
                  by_cases h7 : c == '\n'
                  · obtain ⟨ts, hts, hfree⟩ := ih cs (line + 1) 1 hlen
                    refine ⟨⟨TokenType.NEWLINE, "\n", line, col⟩ :: ts, ?_, ?_⟩
                    · rw [if_pos h7]
                      simp only [List.cons_append, List.cons.injEq, true_and]
                      rw [hts]
                      have hc : c = '\n' := by simpa using h7
                      have hpos : scanPos (line, col) (c :: cs) = scanPos (line + 1, 1) cs := by
                        show scanPos (advancePos (line, col) c) cs = _
                        simp [advancePos, hc]
                      rw [hpos]
                    · intro t ht
                      rcases List.mem_cons.mp ht with hh | hh
                      · subst hh; simp
                      · exact hfree t hh
                  · rw [if_neg h7]
                    have hcspec : isSpecialChar c = false := by
                      have e2 : ¬c = '\\' := by simpa using h2
                      have e3 : ¬c = '\x7b' := by simpa using h3
                      have e4 : ¬c = '\x7d' := by simpa using h4
                      have e5 : ¬c = '[' := by simpa using h5
                      have e6 : ¬c = ']' := by simpa using h6
                      have e7 : ¬c = '\n' := by simpa using h7
                      simp [isSpecialChar, e2, e3, e4, e5, e6, e7]
                    have hlen3 : (cs.dropWhile (fun ch => !isSpecialChar ch)).length < fuel :=
                      lt_of_le_of_lt (List.dropWhile_sublist _).length_le hlen
                    have hpos : scanPos (line, col) (c :: cs) =
                        scanPos (line, col + (c :: cs.takeWhile (fun ch => !isSpecialChar ch)).length)
                          (cs.dropWhile (fun ch => !isSpecialChar ch)) := by
                      rw [scanPos_stepNoNl (by simpa using h7) line col cs]
                      conv_lhs => rw [← List.takeWhile_append_dropWhile
                        (p := fun ch => !isSpecialChar ch) (l := cs)]
                      rw [scanPos_append]
                      rw [scanPos_noNl (cs.takeWhile (fun ch => !isSpecialChar ch))
                        (fun x hx => by
                          have := List.mem_takeWhile_imp hx
                          intro heq; subst heq; simp [isSpecialChar] at this)]
                      simp only [List.length_cons]
                      congr 2
                      omega
                    by_cases h8 : trimStr ⟨c :: cs.takeWhile (fun ch => !isSpecialChar ch)⟩ == ""
                    · obtain ⟨ts, hts, hfree⟩ := ih (cs.dropWhile (fun ch => !isSpecialChar ch)) line
                        (col + (c :: cs.takeWhile (fun ch => !isSpecialChar ch)).length) hlen3
                      refine ⟨ts, ?_, hfree⟩
                      show (if trimStr ⟨c :: cs.takeWhile (fun ch => !isSpecialChar ch)⟩ == ""
                        then _ else _) = _
                      rw [if_pos h8, hts, hpos]
                    · obtain ⟨ts, hts, hfree⟩ := ih (cs.dropWhile (fun ch => !isSpecialChar ch)) line
                        (col + (c :: cs.takeWhile (fun ch => !isSpecialChar ch)).length) hlen3
                      refine ⟨⟨TokenType.TEXT,
                        trimStr ⟨c :: cs.takeWhile (fun ch => !isSpecialChar ch)⟩, line, col⟩ :: ts,
                        ?_, ?_⟩
                      · show (if trimStr ⟨c :: cs.takeWhile (fun ch => !isSpecialChar ch)⟩ == ""
                          then _ else _) = _
                        rw [if_neg h8]
                        simp only [List.cons_append, List.cons.injEq, true_and]
                        rw [hts, hpos]
                      · intro t ht
                        rcases List.mem_cons.mp ht with hh | hh
                        · subst hh; simp
                        · exact hfree t hh

lemma mem_trimList {a : Char} {cs : List Char} (h : a ∈ trimList cs) : a ∈ cs := by
  unfold trimList at h
  rw [List.mem_reverse] at h
  have h2 := (List.dropWhile_sublist isJsWs).mem h
  rw [List.mem_reverse] at h2
  exact (List.dropWhile_sublist isJsWs).mem h2

lemma mem_trimStr {a : Char} {s : String} (h : a ∈ (trimStr s).toList) : a ∈ s.toList := by
  exact mem_trimList h

lemma tokenizeAux_no_bs : ∀ fuel cs line col t, t ∈ tokenizeAux fuel cs line col →
    '\\' ∉ t.value.toList := by
  intro fuel
  induction fuel with
  | zero =>
    intro cs line col t ht
    simp [tokenizeAux] at ht
    subst ht; simp
  | succ fuel ih =>
    intro cs line col t ht
    match cs with
    | [] =>
      simp [tokenizeAux] at ht
      subst ht; simp
    | c :: cs =>
      rw [tokenizeAux] at ht
      by_cases h1 : isSkipWs c
      · rw [if_pos h1] at ht
        exact ih cs line (col + 1) t ht
      · rw [if_neg h1] at ht
        by_cases h2 : c == '\\'
        · rw [if_pos h2] at ht
          rcases List.mem_cons.mp ht with hh | hh
          · subst hh
            intro hmem
            have : isCmdChar '\\' := List.mem_takeWhile_imp hmem
            simp [isCmdChar] at this
          · exact ih _ _ _ t hh
        · rw [if_neg h2] at ht
          by_cases h3 : c == '\x7b'
          · rw [if_pos h3] at ht
            rcases List.mem_cons.mp ht with hh | hh
            · subst hh; simp
            · exact ih _ _ _ t hh
          · rw [if_neg h3] at ht
            by_cases h4 : c == '\x7d'
            · rw [if_pos h4] at ht
              rcases List.mem_cons.mp ht with hh | hh
              · subst hh; simp
              · exact ih _ _ _ t hh
            · rw [if_neg h4] at ht
              by_cases h5 : c == '['
              · rw [if_pos h5] at ht
                rcases List.mem_cons.mp ht with hh | hh
                · subst hh; simp
                · exact ih _ _ _ t hh
              · rw [if_neg h5] at ht
                by_cases h6 : c == ']'
                · rw [if_pos h6] at ht
                  rcases List.mem_cons.mp ht with hh | hh
                  · subst hh; simp
                  · exact ih _ _ _ t hh
                · rw [if_neg h6] at ht
                  by_cases h7 : c == '\n'
                  · rw [if_pos h7] at ht
                    rcases List.mem_cons.mp ht with hh | hh
                    · subst hh; simp
                    · exact ih _ _ _ t hh
                  · rw [if_neg h7] at ht
                    have hcbs : ¬c = '\\' := by simpa using h2
                    by_cases h8 : trimStr ⟨c :: cs.takeWhile (fun ch => !isSpecialChar ch)⟩ == ""
                    · rw [if_pos h8] at ht
                      exact ih _ _ _ t ht
                    · rw [if_neg h8] at ht
                      rcases List.mem_cons.mp ht with hh | hh
                      · subst hh
                        intro hmem
                        have hmem2 := mem_trimStr hmem
                        rcases List.mem_cons.mp hmem2 with hh2 | hh2
                        · exact hcbs hh2.symm
                        · have := List.mem_takeWhile_imp (p := fun ch => !isSpecialChar ch) hh2
                          simp [isSpecialChar] at this
                      · exact ih _ _ _ t hh

lemma tokenize_no_bs (s : String) (t : Token) (ht : t ∈ tokenize s) :
    '\\' ∉ t.value.toList :=
  tokenizeAux_no_bs (s.length + 1) s.toList 1 1 t ht

lemma readBraceLoop_no_bs : ∀ ts depth acc,
    (∀ t ∈ ts, '\\' ∉ t.value.toList) → '\\' ∉ acc.toList →
    '\\' ∉ (readBraceLoop ts depth acc).1.toList := by
  intro ts
  induction ts with
  | nil =>
    intro depth acc _ hacc
    cases depth <;> simpa [readBraceLoop]
  | cons t rest ih =>
    intro depth acc h hacc
    cases depth with
    | zero => simpa [readBraceLoop]
    | succ d =>
      rw [readBraceLoop]
      have hrest : ∀ x ∈ rest, '\\' ∉ x.value.toList := fun x hx => h x (by simp [hx])
      by_cases h1 : t.type = TokenType.EOF
      · rw [if_pos h1]; exact hacc
      · rw [if_neg h1]
        by_cases h2 : t.type = TokenType.LBRACE
        · rw [if_pos h2]
          refine ih (d + 2) (acc ++ "\x7b") hrest ?_
          intro hmem
          rcases List.mem_append.mp hmem with hh | hh
          · exact hacc hh
          · simp at hh
        · rw [if_neg h2]
          by_cases h3 : t.type = TokenType.RBRACE
          · rw [if_pos h3]
            refine ih d _ hrest ?_
            by_cases hd : d > 0
            · rw [if_pos hd]
              intro hmem
              rcases List.mem_append.mp hmem with hh | hh
              · exact hacc hh
              · simp at hh
            · rw [if_neg hd]; exact hacc
          · rw [if_neg h3]
            refine ih (d + 1) (acc ++ t.value) hrest ?_
            intro hmem
            rcases List.mem_append.mp hmem with hh | hh
            · exact hacc hh
            · exact h t (by simp) hh

lemma readBraceContent_no_bs (ts : List Token)
    (h : ∀ t ∈ ts, '\\' ∉ t.value.toList)
    {content : String} {rest : List Token}
    (hok : readBraceContent ts = .ok (content, rest)) :
    '\\' ∉ content.toList := by
  unfold readBraceContent at hok
  by_cases h1 : (currentTok ts).type = TokenType.LBRACE
  · rw [if_pos h1] at hok
    have := readBraceLoop_no_bs ts.tail 1 ""
      (fun t ht => h t (List.mem_of_mem_tail ht)) (by simp)
    simp only [Except.ok.injEq, Prod.mk.injEq] at hok
    obtain ⟨hc, -⟩ := hok
    rw [← hc]
    exact fun hm => this (mem_trimStr hm)
  · rw [if_neg h1] at hok
    simp at hok

/-! ## Parser lemmas -/

/-- Every slide node `parseSlide` returns carries the id derived from its
title. -/
lemma parseSlide_id {ts : List Token} {sl : SlideNode} {rest : List Token}
    (h : parseSlide ts = .ok (sl, rest)) : sl.id = mkSlideId sl.title := by
  unfold parseSlide at h
  cases h1 : readBraceContent ts with
  | error e => rw [h1] at h; simp [bind, Except.bind] at h
  | ok p1 =>
    obtain ⟨title, ts1⟩ := p1
    rw [h1] at h
    simp only [bind, Except.bind] at h
    cases h2 : readBraceContent ts1 with
    | error e => rw [h2] at h; simp [bind, Except.bind] at h
    | ok p2 =>
      obtain ⟨blk, ts2⟩ := p2
      rw [h2] at h
      simp only [bind, Except.bind] at h
      cases h3 : parseContentLoop ((tokenize blk).length + 1) (tokenize blk) [] with
      | error e => rw [h3] at h; simp [bind, Except.bind] at h
      | ok content =>
        rw [h3] at h
        simp only [bind, Except.bind, Except.ok.injEq, Prod.mk.injEq] at h
        obtain ⟨h4, -⟩ := h
        rw [← h4]

/-- Slides accumulated by the top-level loop keep title-derived ids. -/
lemma parseTopLoop_ids : ∀ fuel ts deckTitle slides d,
    (∀ sl ∈ slides, sl.id = mkSlideId sl.title) →
    parseTopLoop fuel ts deckTitle slides = .ok d →
    ∀ sl ∈ d.slides, sl.id = mkSlideId sl.title := by
  intro fuel
  induction fuel with
  | zero => intro ts dt slides d hinv h; simp [parseTopLoop] at h
  | succ fuel ih =>
    intro ts dt slides d hinv h
    rw [parseTopLoop] at h
    by_cases h1 : (currentTok ts).type = TokenType.EOF
    · rw [if_pos h1] at h
      simp only [Except.ok.injEq] at h
      subst h
      simpa using hinv
    · rw [if_neg h1] at h
      by_cases h2 : (currentTok ts).type = TokenType.COMMAND
      · rw [if_pos h2] at h
        by_cases h3 : (currentTok ts).value = "slide"
        · rw [if_pos h3] at h
          cases h4 : parseSlide ts.tail with
          | error e => rw [h4] at h; simp [bind, Except.bind] at h
          | ok p =>
            obtain ⟨s, ts1⟩ := p
            rw [h4] at h
            simp only [bind, Except.bind] at h
            refine ih ts1 dt (slides ++ [s]) d ?_ h
            intro sl hsl
            rcases List.mem_append.mp hsl with hh | hh
            · exact hinv sl hh
            · simp at hh; subst hh; exact parseSlide_id h4
        · rw [if_neg h3] at h
          by_cases h5 : (currentTok ts).value = "title"
          · rw [if_pos h5] at h
            cases h6 : readBraceContent ts.tail with
            | error e => rw [h6] at h; simp [bind, Except.bind] at h
            | ok p =>
              obtain ⟨nt, ts1⟩ := p
              rw [h6] at h
              simp only [bind, Except.bind] at h
              exact ih ts1 nt slides d hinv h
          · rw [if_neg h5] at h
            simp at h
      · rw [if_neg h2] at h
        by_cases h7 : (currentTok ts).type = TokenType.NEWLINE
        · rw [if_pos h7] at h
          exact ih ts.tail dt slides d hinv h
        · rw [if_neg h7] at h
          simp at h

/-- Every slide of a successfully parsed deck has a title-derived id. -/
lemma parseLatexLite_ids {input : String} {d : SlideDeck}
    (h : parseLatexLite input = .ok d) :
    ∀ sl ∈ d.slides, sl.id = mkSlideId sl.title :=
  parseTopLoop_ids ((tokenize input).length + 1) (tokenize input) "Untitled Deck" []
    d (by simp) h

/-! ## Round-trip lemmas for the validator -/

/-- An array of wire strings validates back to the same string list. -/
lemma mapOpt_parseStr_map (l : List String) :
    mapOpt parseStr (l.map Json.str) = some l := by
  induction l with
  | nil => rfl
  | cons s rest ih => simp [mapOpt, parseStr, ih]

/-- Serializing any content node and validating it yields it back. -/
lemma validate_contentToJson (n : ContentNode) :
    validateContentNodeJson (contentToJson n) = some n := by
  cases n with
  | definition t b => rfl
  | thm t b => rfl
  | proof b => rfl
  | equation l a =>
    cases a with
    | none => rfl
    | some m => cases m <;> rfl
  | figure r alt cap => cases alt <;> cases cap <;> rfl
  | algorithm nm steps =>
    simp [contentToJson, validateContentNodeJson, lookupField, List.foldl,
      parseReqField, parseStrArr, parseStr, mapOpt_parseStr_map]
  | note b => rfl
  | text c => rfl

/-- A serialized content list validates back to itself. -/
lemma mapOpt_contentToJson (l : List ContentNode) :
    mapOpt validateContentNodeJson (l.map contentToJson) = some l := by
  induction l with
  | nil => rfl
  | cons n rest ih => simp [mapOpt, validate_contentToJson, ih]

/-- Serializing any slide node and validating it yields it back. -/
lemma validate_slideToJson (s : SlideNode) :
    validateSlideNodeJson (slideToJson s) = some s := by
  simp [slideToJson, validateSlideNodeJson, lookupField, List.foldl,
    parseReqField, parseStr, mapOpt_contentToJson]

/-- A serialized slide list validates back to itself. -/
lemma mapOpt_slideToJson (l : List SlideNode) :
    mapOpt validateSlideNodeJson (l.map slideToJson) = some l := by
  induction l with
  | nil => rfl
  | cons s rest ih => simp [mapOpt, validate_slideToJson, ih]

/-- Serializing any deck and validating it yields it back. -/
lemma validate_deckToJson (d : SlideDeck) :
    validateSlideDeckJson (deckToJson d) = some d := by
  obtain ⟨⟨t, a, dt⟩, slides⟩ := d
  cases a <;> cases dt <;>
    simp [deckToJson, validateSlideDeckJson, validateMetaJson, optField,
      lookupField, List.foldl, parseReqField, parseOptField, parseStr,
      mapOpt_slideToJson]



/-- The bracket-free arm of parseEquation: animate defaults to none. -/
lemma parseEquation_noBracket {ts : List Token} {latex : String} {rest : List Token}
    (hb : (currentTok ts).type ≠ TokenType.LBRACKET)
    (h : readBraceContent ts = .ok (latex, rest)) :
    parseEquation ts = .ok (ContentNode.equation latex (some AnimationMode.none), rest) := by
  unfold parseEquation
  rw [if_neg hb, h]
  simp [bind, Except.bind]

/-- The bracketed arm of parseEquation with a non-matching parameter:
animate stays none and parsing proceeds to the brace group. -/
lemma parseEquation_badBracket {ts : List Token} {params : String}
    {ts1 : List Token} {latex : String} {ts2 : List Token}
    (hb : (currentTok ts).type = TokenType.LBRACKET)
    (hbr : readBracketContent ts = .ok (params, ts1))
    (hfind : findAnimate params = Option.none)
    (hbrace : readBraceContent ts1 = .ok (latex, ts2)) :
    parseEquation ts = .ok (ContentNode.equation latex (some AnimationMode.none), ts2) := by
  unfold parseEquation
  rw [if_pos hb, hbr]
  simp only [bind, Except.bind]
  rw [hfind]
  rw [hbrace]

section ClaimTheorems

/-- Claim C1 (code divergence witness): the source text of an unterminated
brace group — a slide command, a braced title, then a lone opening brace at
end of input — is accepted by the parser, which returns a SlideDeck with
one slide of empty content and no error: readBraceContent exits its loop at
EOF without raising, contrary to the spec and to the parser's own
documentation that a ParserError is thrown on any syntax error. -/
theorem unterminatedBraceAccepted :
    parseLatexLite "\\slide\x7bTitle\x7d\x7b" =
      .ok ⟨⟨"Untitled Deck", Option.none, Option.none⟩,
        [⟨"slide-title", "Title", []⟩]⟩ := by
  rfl

/-- Claim C2 (code divergence witness): a definition node carrying an
unknown extra key inside an otherwise valid deck is accepted by the
validator — the zod object schemas are non-strict and strip unknown keys
rather than rejecting them, contrary to the documented rule that no unknown
fields are allowed. -/
theorem extraKeyAccepted :
    validateSlideDeckJson (Json.obj
      [("meta", Json.obj [("title", Json.str "T")]),
       ("slides", Json.arr [Json.obj
         [("type", Json.str "slide"), ("id", Json.str "i"),
          ("title", Json.str "S"),
          ("content", Json.arr [Json.obj
            [("type", Json.str "definition"), ("title", Json.str "D"),
             ("body", Json.str "B"), ("extra", Json.str "x")]])]])]) =
      some ⟨⟨"T", Option.none, Option.none⟩,
        [⟨"i", "S", [ContentNode.definition "D" "B"]⟩]⟩ := by
  rfl

/-- Claim C3: an equation parsed without a bracket parameter has animate
none, and an equation whose bracket parameter does not match the animate
pattern also has animate none with no error raised beyond the brace
group. -/
theorem equationAnimateDefault :
    (∀ ts latex rest, (currentTok ts).type ≠ TokenType.LBRACKET →
      readBraceContent ts = .ok (latex, rest) →
      parseEquation ts = .ok (ContentNode.equation latex (some AnimationMode.none), rest)) ∧
    (∀ ts params ts1 latex ts2,
      (currentTok ts).type = TokenType.LBRACKET →
      readBracketContent ts = .ok (params, ts1) →
      findAnimate params = Option.none →
      readBraceContent ts1 = .ok (latex, ts2) →
      parseEquation ts = .ok (ContentNode.equation latex (some AnimationMode.none), ts2)) := by
  exact ⟨fun ts latex rest hb h => parseEquation_noBracket hb h,
    fun ts params ts1 latex ts2 hb hbr hfind hbrace =>
      parseEquation_badBracket hb hbr hfind hbrace⟩

/-- Claim C3 witness: the default and the silently ignored malformed
bracket parameter, at concrete inputs. -/
theorem equationAnimateDefault_spot :
    parseEquation (tokenize "\x7bE\x7d") =
      .ok (ContentNode.equation "E" (some AnimationMode.none),
        [⟨TokenType.EOF, "", 1, 4⟩]) ∧
    parseEquation (tokenize "[animate=xyz]\x7bE\x7d") =
      .ok (ContentNode.equation "E" (some AnimationMode.none),
        [⟨TokenType.EOF, "", 1, 17⟩]) := by
  constructor
  · exact equationAnimateDefault.1 (tokenize "\x7bE\x7d") "E"
      [⟨TokenType.EOF, "", 1, 4⟩] (by decide) (by rfl)
  · exact equationAnimateDefault.2 (tokenize "[animate=xyz]\x7bE\x7d") "animate=xyz"
      [⟨TokenType.LBRACE, "\x7b", 1, 14⟩, ⟨TokenType.TEXT, "E", 1, 15⟩,
       ⟨TokenType.RBRACE, "\x7d", 1, 16⟩, ⟨TokenType.EOF, "", 1, 17⟩]
      "E" [⟨TokenType.EOF, "", 1, 17⟩] (by decide) (by rfl) (by rfl) (by rfl)

/-- Claim C4: a parsed algorithm node's steps are exactly the second brace
group's text split on commas, trimmed, with empty pieces dropped; a blob of
only whitespace and commas yields an empty steps array. -/
theorem algorithmSteps (ts : List Token) (name : String) (ts1 : List Token)
    (blob : String) (ts2 : List Token)
    (h1 : readBraceContent ts = .ok (name, ts1))
    (h2 : readBraceContent ts1 = .ok (blob, ts2)) :
    parseAlgorithm ts = .ok (ContentNode.algorithm name (splitSteps blob), ts2) ∧
    splitSteps "  , , " = [] := by
  constructor
  · unfold parseAlgorithm
    rw [h1]
    simp only [bind, Except.bind]
    rw [h2]
  · rfl

/-- Claim C4 witness: the steps pipeline at a concrete algorithm argument
list. -/
theorem algorithmSteps_spot :
    parseAlgorithm (tokenize "\x7bA\x7d\x7ba, b ,\x7d") =
      .ok (ContentNode.algorithm "A" (splitSteps "a, b ,"),
        [⟨TokenType.EOF, "", 1, 12⟩]) ∧
    splitSteps "  , , " = [] :=
  algorithmSteps (tokenize "\x7bA\x7d\x7ba, b ,\x7d") "A"
    [⟨TokenType.LBRACE, "\x7b", 1, 4⟩, ⟨TokenType.TEXT, "a, b ,", 1, 5⟩,
     ⟨TokenType.RBRACE, "\x7d", 1, 11⟩, ⟨TokenType.EOF, "", 1, 12⟩]
    "a, b ," [⟨TokenType.EOF, "", 1, 12⟩] (by rfl) (by rfl)


/-- Claim C5 (code divergence witness): the spec scenario source — a title
directive, a newline, and a slide whose body is a definition directive —
parses to the claimed meta title, slide id and slide title, but the slide
content is three plain text nodes rather than one definition node:
readBraceContent concatenates COMMAND token values without their leading
backslash, so the re-tokenized slide body contains no command tokens and
the content dispatch never fires. -/
theorem slideScenarioDiverges :
    parseLatexLite "\\title\x7bT\x7d\n\\slide\x7bS1\x7d\x7b\\definition\x7bD\x7d\x7bBody\x7d\x7d" =
      .ok ⟨⟨"T", Option.none, Option.none⟩,
        [⟨"slide-s1", "S1",
          [ContentNode.text "definition", ContentNode.text "D",
           ContentNode.text "Body"]⟩]⟩ := by
  rfl

/-- Claim C6: tokenization always returns a token list ending in one EOF
token carrying the final line/column of the scan, with no EOF token
anywhere before it and exactly one EOF token in the whole sequence. -/
theorem tokenizeEofSentinel (s : String) :
    ∃ ts, tokenize s =
        ts ++ [⟨TokenType.EOF, "", (scanPos (1, 1) s.toList).1,
          (scanPos (1, 1) s.toList).2⟩] ∧
      (∀ t ∈ ts, t.type ≠ TokenType.EOF) ∧
      ((tokenize s).filter (fun t => t.type == TokenType.EOF)).length = 1 := by
  obtain ⟨ts, hts, hfree⟩ :=
    tokenizeAux_eof (s.length + 1) s.toList 1 1 (Nat.lt_succ_self _)
  refine ⟨ts, hts, hfree, ?_⟩
  have htok : tokenize s = ts ++ [⟨TokenType.EOF, "",
      (scanPos (1, 1) s.toList).1, (scanPos (1, 1) s.toList).2⟩] := hts
  rw [htok, List.filter_append]
  have hnil : ts.filter (fun t => t.type == TokenType.EOF) = [] :=
    List.filter_eq_nil_iff.mpr (fun t ht => by simpa using hfree t ht)
  rw [hnil]
  simp

/-- Claim C7: validation is idempotent — a deck accepted by the validator,
written back to the IR JSON surface, validates again to the same tree. -/
theorem validateIdempotent (j : Json) (d : SlideDeck)
    (_h : validateSlideDeckJson j = some d) :
    validateSlideDeckJson (deckToJson d) = some d :=
  validate_deckToJson d

/-- Claim C7 witness at a concrete accepted deck. -/
theorem validateIdempotent_spot :
    validateSlideDeckJson (deckToJson ⟨⟨"T", Option.none, Option.none⟩, []⟩) =
      some ⟨⟨"T", Option.none, Option.none⟩, []⟩ :=
  validateIdempotent
    (Json.obj [("meta", Json.obj [("title", Json.str "T")]),
      ("slides", Json.arr [])])
    ⟨⟨"T", Option.none, Option.none⟩, []⟩ (by rfl)

/-- Claim C8: parsing is deterministic — equal source strings yield equal
parse results, slide ids included. -/
theorem parseDeterministic (s t : String) (h : s = t) :
    parseLatexLite s = parseLatexLite t := by
  rw [h]

/-- Claim C8 witness at a concrete source. -/
theorem parseDeterministic_spot :
    parseLatexLite "\\title\x7bX\x7d" = parseLatexLite "\\title\x7bX\x7d" :=
  parseDeterministic "\\title\x7bX\x7d" "\\title\x7bX\x7d" rfl

/-- Claim C9: any deck the parser produces passes the validator unchanged —
the parser's output space consists of exactly the typed trees, and every
typed tree written to the IR JSON surface validates back to itself. -/
theorem parserOutputValidates (input : String) (d : SlideDeck)
    (_h : parseLatexLite input = .ok d) :
    validateSlideDeckJson (deckToJson d) = some d :=
  validate_deckToJson d

/-- Claim C9 witness at a concrete parsed source. -/
theorem parserOutputValidates_spot :
    validateSlideDeckJson (deckToJson
      ⟨⟨"Untitled Deck", Option.none, Option.none⟩, [⟨"slide-a", "A", []⟩]⟩) =
      some ⟨⟨"Untitled Deck", Option.none, Option.none⟩, [⟨"slide-a", "A", []⟩]⟩ :=
  parserOutputValidates "\\slide\x7bA\x7d\x7b\x7d"
    ⟨⟨"Untitled Deck", Option.none, Option.none⟩, [⟨"slide-a", "A", []⟩]⟩ (by rfl)

/-- Claim C10: no tokenizer value ever contains a backslash (COMMAND values
drop it, TEXT runs stop at it), hence every brace-group content extracted
from a tokenized source is backslash-free; concretely the brace argument
holding a frac command with nested braces comes out with the backslash
dropped and interior braces re-inserted, and whitespace adjacent to an
interior command is lost. -/
theorem braceContentNoBackslash :
    (∀ s : String, ∀ t ∈ tokenize s, '\\' ∉ t.value.toList) ∧
    (∀ (s : String) (content : String) (rest : List Token),
      readBraceContent (tokenize s) = .ok (content, rest) →
      '\\' ∉ content.toList) ∧
    parseEquation (tokenize "\x7b\\frac\x7ba\x7d\x7bb\x7d\x7d") =
      .ok (ContentNode.equation "frac\x7ba\x7d\x7bb\x7d" (some AnimationMode.none),
        [⟨TokenType.EOF, "", 1, 14⟩]) ∧
    readBraceContent (tokenize "\x7bHello \\world now\x7d") =
      .ok ("Helloworldnow", [⟨TokenType.EOF, "", 1, 19⟩]) := by
  refine ⟨fun s t ht => tokenize_no_bs s t ht,
    fun s content rest h =>
      readBraceContent_no_bs (tokenize s) (fun t ht => tokenize_no_bs s t ht) h,
    by rfl, by rfl⟩

/-- Claim C10 witness: backslash-freeness at concrete extracted strings. -/
theorem braceContentNoBackslash_spot :
    '\\' ∉ "frac\x7ba\x7d\x7bb\x7d".toList ∧
    '\\' ∉ (⟨TokenType.COMMAND, "slide", 1, 1⟩ : Token).value.toList := by
  constructor
  · exact braceContentNoBackslash.2.1 "\x7b\\frac\x7ba\x7d\x7bb\x7d\x7d"
      "frac\x7ba\x7d\x7bb\x7d" [⟨TokenType.EOF, "", 1, 14⟩] (by rfl)
  · exact braceContentNoBackslash.1 "\\slide"
      ⟨TokenType.COMMAND, "slide", 1, 1⟩ (by decide)

end ClaimTheorems

end Merlin
